import Mathlib

/-!
Verification of the lintworks broadcaster/listener framework (`lw/base.py`)
and the waiver-insertion utility (`auto_waive.py`).

The Python code is shallowly embedded: classes are identified by their
names (`String`), the process-wide `listener_registry` is a function from
broadcaster names to the ordered list of subscribed listener names, the
run-scoped `created_instances` cache is an association list, and the
population of live instances (Python objects) is a heap of numbered
entries recording each instance's class and its ordered subscriber list.
-/

set_option maxHeartbeats 1000000

/-! ### Character-level string helpers (Python `str.lower` / `str.replace`) -/

/-- Fueled worker for `removeAll`; the fuel is an upper bound on the input
length, so it never runs out on the calls made by `removeAll`. -/
def removeAllAux (pat : List Char) : Nat → List Char → List Char
  | 0, s => s
  | _ + 1, [] => []
  | fuel + 1, c :: rest =>
    if pat ≠ [] ∧ pat.isPrefixOf (c :: rest) then
      removeAllAux pat fuel ((c :: rest).drop pat.length)
    else
      c :: removeAllAux pat fuel rest

/-- Python `s.replace(pat, "")`: remove every occurrence of `pat` from `s`,
scanning left to right, non-overlapping. -/
def removeAll (pat s : List Char) : List Char :=
  removeAllAux pat s.length s

/-- `Broadcaster.listener_function_name`:
`"update_{}".format(cls.__name__.lower().replace('broadcaster', ''))`. -/
def listener_function_name (name : String) : String :=
  ⟨"update_".data ++ removeAll "broadcaster".data (name.data.map Char.toLower)⟩

/-- Modelled from the spec's words, for comparison with the code: the handler
name obtained by stripping the reserved suffix `"Broadcaster"` exactly once
from the end of the type name and lowercasing the remainder. -/
def handler_name_spec (name : String) : String :=
  ⟨"update_".data ++ ((name.data.take (name.data.length - 11)).map Char.toLower)⟩

/-! ### Declaration model (`ListenerMeta.__new__`) -/

/-- A direct base class appearing in a class declaration.  `Broadcaster` and
`Listener` are the two framework base classes; `other` covers any further base,
recording whether its metaclass is `ListenerMeta` (i.e. whether it derives from
`Listener`). -/
inductive PyBase where
  | broadcasterBase : PyBase
  | listenerBase : PyBase
  | other : Bool → PyBase
deriving DecidableEq

/-- Whether `type.__new__` dispatches to `ListenerMeta.__new__`: some direct
base carries the `ListenerMeta` metaclass. -/
def usesListenerMeta (bases : List PyBase) : Bool :=
  bases.any fun b =>
    match b with
    | .broadcasterBase => false
    | .listenerBase => true
    | .other m => m

/-- One entry of a `subscribe_to` list: either a genuine `Broadcaster` class
(which owns a `listener_registry`) or some other value (named for messages). -/
inductive SubEntry where
  | bc : String → SubEntry
  | notBC : String → SubEntry
deriving DecidableEq

/-- The value of the `subscribe_to` class attribute: a list, or some non-list
value (named for messages). -/
inductive SubVal where
  | pylist : List SubEntry → SubVal
  | notList : String → SubVal
deriving DecidableEq

/-- Declaration faults, with the entities named by the exception messages. -/
inductive DeclErr where
  | illegalBroadcaster : String → DeclErr
  | subscribeToNotList : String → DeclErr
  | noSubscriptions : String → DeclErr
  | notABroadcaster : String → DeclErr
deriving DecidableEq

/-- The process-wide `Broadcaster.listener_registry`
(a `defaultdict(list)` keyed by broadcaster class). -/
def Registry := String → List String

/-- `subscription.listener_registry[subscription].append(new_class)`. -/
def regAppend (reg : Registry) (b : String) (cls : String) : Registry :=
  fun x => if x = b then reg x ++ [cls] else reg x

/-- The loop of `ListenerMeta._handle_listener` over `subscribe_to`: append the
new class to each valid broadcaster's registry entry, in order, stopping with a
fault at the first entry lacking a `listener_registry` attribute.  Mutations
made before the fault persist, as in Python. -/
def subscribeLoop (cls : String) : List SubEntry → Registry → Registry × Option DeclErr
  | [], reg => (reg, none)
  | .bc b :: rest, reg => subscribeLoop cls rest (regAppend reg b cls)
  | .notBC d :: _, reg => (reg, some (.notABroadcaster d))

/-- `ListenerMeta._handle_listener`: validate `subscribe_to` and register the
new class with each listed broadcaster. -/
def handle_listener (cls : String) (sub : SubVal) (reg : Registry) :
    Registry × Option DeclErr :=
  match sub with
  | .notList d => (reg, some (.subscribeToNotList d))
  | .pylist entries =>
    if entries.length = 0 ∧ cls ≠ "Listener" then
      (reg, some (.noSubscriptions cls))
    else
      subscribeLoop cls entries reg

/-- Python `name.endswith(suffix)`, at character level. -/
def pyEndsWith (s suffix : String) : Bool :=
  suffix.data.isSuffixOf s.data

/-- `ListenerMeta._handle_broadcaster`: broadcaster classes must end their name
with the reserved suffix. -/
def handle_broadcaster (cls : String) : Option DeclErr :=
  if pyEndsWith cls "Broadcaster" then none else some (.illegalBroadcaster cls)

/-- Declaring a class: `type.__new__` runs `ListenerMeta.__new__` only when a
direct base carries the metaclass; there, the broadcaster name check runs only
when `Broadcaster` is itself a direct base, and then `_handle_listener` runs.
A class deriving only from `Broadcaster` is built by plain `type` and is never
checked or registered. -/
def declareClass (cls : String) (bases : List PyBase) (sub : SubVal)
    (reg : Registry) : Registry × Option DeclErr :=
  if usesListenerMeta bases then
    if PyBase.broadcasterBase ∈ bases then
      match handle_broadcaster cls with
      | some e => (reg, some e)
      | none => handle_listener cls sub reg
    else
      handle_listener cls sub reg
  else
    (reg, none)

/-! ### Instance graph construction (`Broadcaster.__init__` /
`Broadcaster._create_listener_instances`) -/

/-- The static class environment produced by the declarations: the populated
`listener_registry` and, for each class, whether it derives from
`Broadcaster` (and hence builds subscriber instances when constructed). -/
structure Env where
  registry : String → List String
  isB : String → Bool

/-- The classes a freshly constructed instance of `cls` instantiates: its
registry entry when it is a broadcaster, nothing otherwise (plain listeners
never run `_create_listener_instances`). -/
def childClasses (env : Env) (cls : String) : List String :=
  if env.isB cls then env.registry cls else []

/-- `if 'restrictions' in kwargs: if listener_class not in kwargs['restrictions']: continue`. -/
def allowed (restr : Option (List String)) (cls : String) : Bool :=
  match restr with
  | none => true
  | some r => r.contains cls

/-- A completed Python instance: its identity (allocation number), its class,
and the ordered contents of its `listener_instances` list (identities). -/
structure HeapEntry where
  id : Nat
  cls : String
  subs : List Nat
deriving DecidableEq

/-- The mutable state threaded through construction: the run-scoped
`created_instances` cache (newest binding first), the completed instances, and
the next allocation number. -/
structure St where
  cache : List (String × Nat)
  heap : List HeapEntry
  next : Nat
deriving DecidableEq

/-- Python `dict` lookup on an association list with newest binding first. -/
def lookupKey {α : Type} (k : String) : List (String × α) → Option α
  | [] => none
  | (k', v) :: rest => if k' = k then some v else lookupKey k rest

/-- The empty run state (fresh `created_instances` dict, no objects yet). -/
def St.empty : St := ⟨[], [], 0⟩

mutual

/-- Constructing an instance of `cls` (`Broadcaster.__init__` when `cls` is a
broadcaster, a plain `Listener.__init__` otherwise): allocate the object, then
build its subscriber instances.  `fuel` bounds the recursion depth; Python
diverges where the fuel runs out. -/
def constructInst (env : Env) (restr : Option (List String)) :
    Nat → String → St → Option (Nat × St)
  | 0, _, _ => none
  | fuel + 1, cls, st =>
    match createListeners env restr fuel (childClasses env cls)
        { st with next := st.next + 1 } with
    | none => none
    | some (ids, st2) =>
      some (st.next, { st2 with heap := ⟨st.next, cls, ids⟩ :: st2.heap })
termination_by fuel cls st => (fuel, 0)

/-- The loop of `Broadcaster._create_listener_instances` over the registry
entry: skip classes outside the restriction set, reuse the cached instance if
present, otherwise construct a new instance and cache it, and collect the
resulting `listener_instances` list. -/
def createListeners (env : Env) (restr : Option (List String)) :
    Nat → List String → St → Option (List Nat × St)
  | _, [], st => some ([], st)
  | fuel, cls :: rest, st =>
    if allowed restr cls then
      match lookupKey cls st.cache with
      | some i =>
        match createListeners env restr fuel rest st with
        | none => none
        | some (ids, st') => some (i :: ids, st')
      | none =>
        match constructInst env restr fuel cls st with
        | none => none
        | some (i, st1) =>
          match createListeners env restr fuel rest
              { st1 with cache := (cls, i) :: st1.cache } with
          | none => none
          | some (ids, st') => some (i :: ids, st')
    else
      createListeners env restr fuel rest st
termination_by fuel l st => (fuel, l.length + 1)

end

/-! ### Dispatch router (`Broadcaster._broadcast` / `Broadcaster.broadcast`) -/

/-- What `getattr(listener, function_name)` yields on an instance: the
attribute is absent (`AttributeError`), was set to `None` by `_ignore`, or is a
callable handler (tagged by a number so distinct handlers can be told apart). -/
inductive Attr where
  | missing : Attr
  | pynone : Attr
  | fn : Nat → Attr
deriving DecidableEq

/-- The `IllegalListenerError` raised by `_broadcast`, carrying the three
entities its message names: the listener's class, the broadcaster's class and
the expected method name. -/
structure ListenerErr where
  listenerCls : String
  broadcasterCls : String
  functionName : String
deriving DecidableEq

/-- `Broadcaster.broadcast` followed by `_broadcast`: walk `listener_instances`
in order, resolve the update method named after the broadcaster's class on each
listener, fault if it is absent, skip it silently if it is `None`, otherwise
invoke it.  Returns the identities of the listeners actually invoked, in
invocation order. -/
def py_broadcast (bCls : String) (clsOf : Nat → String) (h : Nat → String → Attr) :
    List Nat → Except ListenerErr (List Nat)
  | [] => .ok []
  | j :: rest =>
    match h j (listener_function_name bCls) with
    | .missing => .error ⟨clsOf j, bCls, listener_function_name bCls⟩
    | .pynone => py_broadcast bCls clsOf h rest
    | .fn _ => (py_broadcast bCls clsOf h rest).map (j :: ·)

/-! ### Suppression controller (`Listener._ignore` / `_pay_attention_to` /
`disable` / `enable`) -/

/-- The dynamic state of one listener instance: its attribute table (instance
attributes shadowing the class methods, as `getattr`/`setattr` see them) and
the `_ignored_broadcasters` dict mapping a broadcaster class to the update
method squirrelled away by `_ignore`. -/
structure LState where
  attrs : String → Attr
  ignored : List (String × Attr)

/-- `setattr(self, name, v)`. -/
def setAttr (name : String) (v : Attr) (attrs : String → Attr) : String → Attr :=
  fun g => if g = name then v else attrs g

/-- `del dict[key]` on the `_ignored_broadcasters` association list. -/
def removeKey {α : Type} (k : String) (l : List (String × α)) : List (String × α) :=
  l.filter (fun p => p.1 ≠ k)

/-- The `IllegalListenerError`s raised by the suppression controller, plus the
`AttributeError` `getattr` raises when the update method does not exist. -/
inductive SuppErr where
  | notASubscription : String → SuppErr
  | previouslyIgnored : String → SuppErr
  | notPreviouslyIgnored : String → SuppErr
  | attributeError : String → SuppErr
deriving DecidableEq

/-- `Listener._ignore(broadcaster_class)`: null the update method and squirrel
it away, faulting on an unknown subscription or a doubled suppression. -/
def ignoreBC (subscribeTo : List String) (bc : String) (s : LState) :
    LState × Option SuppErr :=
  if bc ∉ subscribeTo then
    (s, some (.notASubscription bc))
  else if (lookupKey bc s.ignored).isSome then
    (s, some (.previouslyIgnored bc))
  else
    match s.attrs (listener_function_name bc) with
    | .missing => (s, some (.attributeError (listener_function_name bc)))
    | a =>
      (⟨setAttr (listener_function_name bc) .pynone s.attrs, (bc, a) :: s.ignored⟩, none)

/-- `Listener._pay_attention_to(broadcaster_class)`: restore the squirrelled
update method and clear the map entry, faulting on an unknown subscription or a
subscription that is not currently ignored. -/
def payAttentionTo (subscribeTo : List String) (bc : String) (s : LState) :
    LState × Option SuppErr :=
  if bc ∉ subscribeTo then
    (s, some (.notASubscription bc))
  else
    match lookupKey bc s.ignored with
    | none => (s, some (.notPreviouslyIgnored bc))
    | some a =>
      (⟨setAttr (listener_function_name bc) a s.attrs, removeKey bc s.ignored⟩, none)

/-- `Listener.disable`: `_ignore` each declared subscription in order; a fault
stops the loop, leaving the mutations already made in place. -/
def disableL (subscribeTo : List String) : List String → LState → LState × Option SuppErr
  | [], s => (s, none)
  | bc :: rest, s =>
    match ignoreBC subscribeTo bc s with
    | (s', none) => disableL subscribeTo rest s'
    | (s', some e) => (s', some e)

/-- `Listener.enable`: `_pay_attention_to` each declared subscription in order;
a fault stops the loop, leaving the mutations already made in place. -/
def enableL (subscribeTo : List String) : List String → LState → LState × Option SuppErr
  | [], s => (s, none)
  | bc :: rest, s =>
    match payAttentionTo subscribeTo bc s with
    | (s', none) => enableL subscribeTo rest s'
    | (s', some e) => (s', some e)

/-- `Listener.disable`: `for bc in self.subscribe_to: self._ignore(bc)`. -/
def disable (subscribeTo : List String) (s : LState) : LState × Option SuppErr :=
  disableL subscribeTo subscribeTo s

/-- `Listener.enable`: `for bc in self.subscribe_to: self._pay_attention_to(bc)`. -/
def enable (subscribeTo : List String) (s : LState) : LState × Option SuppErr :=
  enableL subscribeTo subscribeTo s

/-! ### Lookup utility (`Broadcaster.get_listener`) -/

/-- An instance tree as `get_listener` traverses it: the class name, whether
the instance is a `Broadcaster` (and so owns `listener_instances`), and its
subscriber instances in order. -/
inductive Inst where
  | mk : String → Bool → List Inst → Inst

/-- The class name of an instance. -/
def Inst.name : Inst → String
  | .mk n _ _ => n

/-- Whether `isinstance(inst, Broadcaster)`. -/
def Inst.isB : Inst → Bool
  | .mk _ b _ => b

/-- The `listener_instances` of an instance. -/
def Inst.subs : Inst → List Inst
  | .mk _ _ l => l

mutual

/-- `Broadcaster.get_listener(listener_name, broadcaster)`: scan the
subscriber list; return a subscriber whose class name matches, recurse into
subscribers that are themselves broadcasters, or return `None`. -/
def get_listener (name : String) : Inst → Option Inst
  | .mk _ _ subs => searchListeners name subs

/-- The `for listener in broadcaster.listener_instances` loop of
`get_listener`, with its early returns. -/
def searchListeners (name : String) : List Inst → Option Inst
  | [] => none
  | l :: rest =>
    if l.name = name then some l
    else
      match (if l.isB then get_listener name l else none) with
      | some g => some g
      | none => searchListeners name rest

end

mutual

/-- Modelled from the spec: the depth-first (pre-order) listing of the
instance tree below a root, descending into subscribers that are themselves
data-source instances.  Used to state what `get_listener` returns. -/
def dfsBelow : Inst → List Inst
  | .mk _ _ subs => dfsForest subs

/-- Pre-order listing of a subscriber forest. -/
def dfsForest : List Inst → List Inst
  | [] => []
  | l :: rest => (l :: (if l.isB then dfsBelow l else [])) ++ dfsForest rest

end

/-! ### Waiver utility (`auto_waive.py`) -/

/-- Digits of a decimal literal to its value (`int(s)` on a digit string). -/
def digitsToNat (ds : List Char) : Nat :=
  ds.foldl (fun n c => n * 10 + (c.toNat - 48)) 0

/-- Matching the tail of the pattern at a fixed filename split: the optional
greedy `(:(?P<line_number>[0-9]+)){0,1}` is tried first, then the literal
`" violates "`, with the rest of the line as the rule. -/
def tryTail (t : List Char) : Option (Option Nat × List Char) :=
  let absent : Option (Option Nat × List Char) :=
    if " violates ".data.isPrefixOf t then some (none, t.drop 10) else none
  match t with
  | ':' :: rest =>
    let ds := rest.takeWhile Char.isDigit
    let rest' := rest.dropWhile Char.isDigit
    if ds ≠ [] ∧ " violates ".data.isPrefixOf rest' then
      some (some (digitsToNat ds), rest'.drop 10)
    else absent
  | _ => absent

/-- The scan of `re.match` with the lazy `^(?P<filename>.*?)`: find the
shortest filename for which the rest of the pattern matches. -/
def matchFrom (acc : List Char) : List Char → Option (List Char × Option Nat × List Char)
  | [] =>
    match tryTail [] with
    | some (n, rule) => some (acc.reverse, n, rule)
    | none => none
  | c :: rest =>
    match tryTail (c :: rest) with
    | some (n, rule) => some (acc.reverse, n, rule)
    | none => matchFrom (c :: acc) rest

/-- `violate_re.match(l)` for
`^(?P<filename>.*?)(:(?P<line_number>[0-9]+)){0,1} violates (?P<rule>.*)`:
the filename, the optional line number, and the rule. -/
def pyMatch (l : String) : Option (String × Option Nat × String) :=
  (matchFrom [] l.data).map fun r => (⟨r.1⟩, r.2.1, ⟨r.2.2⟩)

/-- `contents.insert(line_number, string)` on a file's lines: Python's
`list.insert` clamps an out-of-range index to the end. -/
def pyInsert (k : Nat) (s : String) (l : List String) : List String :=
  l.take k ++ [s] ++ l.drop k

/-- `insert_at_line(filename, line_number, string)` over a filesystem mapping
file names to their lines. -/
def insert_at_line (files : String → List String) (fname : String) (k : Nat)
    (s : String) : String → List String :=
  fun f => if f = fname then pyInsert k s (files f) else files f

/-- Python string comparison: lexicographic on code points. -/
def charListLt : List Char → List Char → Bool
  | [], [] => false
  | [], _ :: _ => true
  | _ :: _, [] => false
  | a :: as, b :: bs =>
    if a.toNat < b.toNat then true
    else if a.toNat = b.toNat then charListLt as bs
    else false

/-- Python `a < b` on strings. -/
def pyStrLt (a b : String) : Bool :=
  charListLt a.data b.data

/-- The ascending order `sorted` uses on `(filename, line_number, rule)`
tuples: lexicographic, strings compared as Python compares them. -/
def tupleLe (a b : String × Nat × String) : Prop :=
  pyStrLt a.1 b.1 = true ∨
    (a.1 = b.1 ∧ (a.2.1 < b.2.1 ∨ (a.2.1 = b.2.1 ∧ pyStrLt b.2.2 a.2.2 = false)))

instance : DecidableRel tupleLe := fun a b =>
  inferInstanceAs (Decidable (pyStrLt a.1 b.1 = true ∨
    (a.1 = b.1 ∧ (a.2.1 < b.2.1 ∨ (a.2.1 = b.2.1 ∧ pyStrLt b.2.2 a.2.2 = false)))))

/-- `int(m.group('line_number'))` over the match list: Python raises
`TypeError` (`int(None)`) as soon as one match lacks the line-number group. -/
def toErrors : List (String × Option Nat × String) → Option (List (String × Nat × String))
  | [] => some []
  | (f, some n, r) :: rest => (toErrors rest).map ((f, n, r) :: ·)
  | (_, none, _) :: _ => none

/-- The marker line `f"// {tool_name}: disable={error}"`. -/
def disableLine (tool rule : String) : String :=
  "// " ++ tool ++ ": disable=" ++ rule

/-- The marker line `f"// {tool_name}: enable={error}"`. -/
def enableLine (tool rule : String) : String :=
  "// " ++ tool ++ ": enable=" ++ rule

/-- `auto_waive.main(tool_name)`: parse the input lines, fault (`TypeError`)
if a match lacks a line number, sort the violations ascending, and walk them in
reverse inserting the enable marker after the offending line and the disable
marker before it. -/
def auto_waive_main (tool : String) (input : List String)
    (files : String → List String) : Option (String → List String) :=
  match toErrors (input.filterMap pyMatch) with
  | none => none
  | some errs =>
    some (((List.insertionSort tupleLe errs).reverse).foldl
      (fun fs e =>
        insert_at_line
          (insert_at_line fs e.1 (e.2.1 + 1) (enableLine tool e.2.2))
          e.1 e.2.1 (disableLine tool e.2.2))
      files)

/-! ### Helper lemmas -/

theorem lookupKey_eq_none {α : Type} {k : String} :
    ∀ {l : List (String × α)}, lookupKey k l = none → ∀ p ∈ l, p.1 ≠ k := by
  intro l
  induction l with
  | nil => intro _ p hp; cases hp
  | cons q rest ih =>
    intro h p hp
    obtain ⟨k', v⟩ := q
    rw [lookupKey] at h
    split at h
    · cases h
    · rcases List.mem_cons.mp hp with hp | hp
      · subst hp; assumption
      · exact ih h p hp

theorem lookupKey_mem {α : Type} {k : String} {v : α} :
    ∀ {l : List (String × α)}, lookupKey k l = some v → (k, v) ∈ l := by
  intro l
  induction l with
  | nil => intro h; cases h
  | cons q rest ih =>
    intro h
    obtain ⟨k', v'⟩ := q
    rw [lookupKey] at h
    split at h
    · rename_i heq
      cases h
      subst heq
      exact List.mem_cons_self _ _
    · exact List.mem_cons_of_mem _ (ih h)

theorem eq_of_nodup_map {α β : Type} {f : α → β} :
    ∀ {l : List α}, (l.map f).Nodup → ∀ {a b : α}, a ∈ l → b ∈ l → f a = f b → a = b := by
  intro l
  induction l with
  | nil => intro _ a b ha; cases ha
  | cons x xs ih =>
    intro h a b ha hb hf
    rw [List.map_cons, List.nodup_cons] at h
    rcases List.mem_cons.mp ha with ha | ha <;> rcases List.mem_cons.mp hb with hb | hb
    · rw [ha, hb]
    · exfalso
      apply h.1
      have : f b ∈ xs.map f := List.mem_map_of_mem f hb
      rw [← hf, ha] at this
      exact this
    · exfalso
      apply h.1
      have : f a ∈ xs.map f := List.mem_map_of_mem f ha
      rw [hf, hb] at this
      exact this
    · exact ih h.2 ha hb hf

theorem forall2_mem_left {α β : Type} {R : α → β → Prop} :
    ∀ {as : List α} {bs : List β}, List.Forall₂ R as bs →
      ∀ a ∈ as, ∃ b ∈ bs, R a b := by
  intro as bs h
  induction h with
  | nil => intro a ha; cases ha
  | cons hr _ ih =>
    intro a ha
    rcases List.mem_cons.mp ha with ha | ha
    · exact ⟨_, List.mem_cons_self _ _, ha ▸ hr⟩
    · obtain ⟨b, hb, hrb⟩ := ih a ha
      exact ⟨b, List.mem_cons_of_mem _ hb, hrb⟩

theorem forall2_mem_right {α β : Type} {R : α → β → Prop} :
    ∀ {as : List α} {bs : List β}, List.Forall₂ R as bs →
      ∀ b ∈ bs, ∃ a ∈ as, R a b := by
  intro as bs h
  induction h with
  | nil => intro b hb; cases hb
  | cons hr _ ih =>
    intro b hb
    rcases List.mem_cons.mp hb with hb | hb
    · exact ⟨_, List.mem_cons_self _ _, hb ▸ hr⟩
    · obtain ⟨a, ha, hra⟩ := ih b hb
      exact ⟨a, List.mem_cons_of_mem _ ha, hra⟩

/-! ### The construction invariant -/

/-- The invariant tying the `created_instances` cache to the population of
completed instances: cache keys are distinct, object identities are distinct,
every cache binding points at a completed instance of the bound class, every
subscriber held by an instance is a cached instance, and every completed
broadcaster holds a cached instance for each of its (unrestricted) registry
classes. -/
structure CInv (env : Env) (restr : Option (List String)) (st : St) : Prop where
  nodupKeys : (st.cache.map Prod.fst).Nodup
  nodupHeap : (st.heap.map HeapEntry.id).Nodup
  heapLt : ∀ e ∈ st.heap, e.id < st.next
  cacheHeap : ∀ p ∈ st.cache, ∃ e ∈ st.heap, e.id = p.2 ∧ e.cls = p.1
  subsCache : ∀ e ∈ st.heap, ∀ j ∈ e.subs, ∃ c, (c, j) ∈ st.cache
  complete : ∀ e ∈ st.heap, ∀ c ∈ childClasses env e.cls, allowed restr c = true →
      ∃ j, (c, j) ∈ st.cache ∧ j ∈ e.subs

/-- How one construction step extends the run state: the invariant is
preserved, cache and heap only grow (by consing), and everything new carries a
fresh identity. -/
structure StExt (env : Env) (restr : Option (List String)) (st st' : St) : Prop where
  inv : CInv env restr st'
  cacheExt : st.cache.IsSuffix st'.cache
  heapExt : st.heap.IsSuffix st'.heap
  nextLe : st.next ≤ st'.next
  newCacheGe : ∀ p ∈ st'.cache, p ∉ st.cache → st.next ≤ p.2
  newHeapGe : ∀ e ∈ st'.heap, e ∉ st.heap → st.next ≤ e.id

/-- Specification of `constructInst` at a given fuel: the state extends, the
new instance is the next allocation, every class cached during the call ranks
strictly below the constructed class, and the constructed instance's
subscriber list realises the filtered registry entry through the cache. -/
def PSpec (env : Env) (restr : Option (List String)) (rank : String → Nat)
    (fuel : Nat) : Prop :=
  ∀ cls st i st', CInv env restr st →
    constructInst env restr fuel cls st = some (i, st') →
    StExt env restr st st' ∧ i = st.next ∧
    (∀ p ∈ st'.cache, p ∉ st.cache → rank p.1 < rank cls) ∧
    ∃ ids, (⟨i, cls, ids⟩ : HeapEntry) ∈ st'.heap ∧
      List.Forall₂ (fun c j => (c, j) ∈ st'.cache)
        ((childClasses env cls).filter (fun c => allowed restr c)) ids

/-- Specification of `createListeners` at a given fuel: the state extends,
every class cached during the loop ranks at most one of the looped classes,
and the produced `listener_instances` list realises the filtered class list
through the cache. -/
def QSpec (env : Env) (restr : Option (List String)) (rank : String → Nat)
    (fuel : Nat) : Prop :=
  ∀ l st ids st', CInv env restr st →
    createListeners env restr fuel l st = some (ids, st') →
    StExt env restr st st' ∧
    (∀ p ∈ st'.cache, p ∉ st.cache → ∃ c ∈ l, rank p.1 ≤ rank c) ∧
    List.Forall₂ (fun c j => (c, j) ∈ st'.cache)
      (l.filter (fun c => allowed restr c)) ids

theorem createListeners_spec (env : Env) (restr : Option (List String))
    (rank : String → Nat) (fuel : Nat) (hP : PSpec env restr rank fuel) :
    QSpec env restr rank fuel := by
  intro l
  induction l with
  | nil =>
    intro st ids st' hinv h
    rw [createListeners] at h
    cases h
    refine ⟨⟨hinv, List.suffix_refl _, List.suffix_refl _, le_refl _, ?_, ?_⟩, ?_, ?_⟩
    · intro p hp hnp; exact absurd hp hnp
    · intro e he hne; exact absurd he hne
    · intro p hp hnp; exact absurd hp hnp
    · simp
  | cons cls rest ih =>
    intro st ids st' hinv h
    rw [createListeners] at h
    split at h
    case isTrue hal =>
      split at h
      case h_1 i hlk =>
        split at h
        case h_1 => cases h
        case h_2 ids1 st1 hrec =>
          cases h
          obtain ⟨post, hrank, hf2⟩ := ih st ids1 st' hinv hrec
          refine ⟨post, ?_, ?_⟩
          · intro p hp hnp
            obtain ⟨c, hc, hle⟩ := hrank p hp hnp
            exact ⟨c, List.mem_cons_of_mem _ hc, hle⟩
          · rw [List.filter_cons_of_pos hal]
            exact List.Forall₂.cons (post.cacheExt.subset (lookupKey_mem hlk)) hf2
      case h_2 hlk =>
        split at h
        case h_1 => cases h
        case h_2 i st1 hcon =>
          obtain ⟨post1, hi, hrank1, ids0, hmem0, _⟩ := hP cls st i st1 hinv hcon
          have hclsNew : ∀ p ∈ st1.cache, p.1 ≠ cls := by
            intro p hp
            by_cases hps : p ∈ st.cache
            · exact lookupKey_eq_none hlk p hps
            · intro hc
              have := hrank1 p hp hps
              rw [hc] at this
              exact lt_irrefl _ this
          have hinvMid :
              CInv env restr { st1 with cache := (cls, i) :: st1.cache } := by
            refine ⟨?_, post1.inv.nodupHeap, post1.inv.heapLt, ?_, ?_, ?_⟩
            · rw [List.map_cons, List.nodup_cons]
              refine ⟨?_, post1.inv.nodupKeys⟩
              intro hmem
              obtain ⟨p, hp, hpc⟩ := List.mem_map.mp hmem
              exact hclsNew p hp hpc
            · intro p hp
              rcases List.mem_cons.mp hp with hp | hp
              · subst hp
                exact ⟨⟨i, cls, ids0⟩, hmem0, rfl, rfl⟩
              · exact post1.inv.cacheHeap p hp
            · intro e he j hj
              obtain ⟨c, hc⟩ := post1.inv.subsCache e he j hj
              exact ⟨c, List.mem_cons_of_mem _ hc⟩
            · intro e he c hc hca
              obtain ⟨j, hjc, hjs⟩ := post1.inv.complete e he c hc hca
              exact ⟨j, List.mem_cons_of_mem _ hjc, hjs⟩
          split at h
          case h_1 => cases h
          case h_2 ids2 st2 hrec =>
            cases h
            obtain ⟨post2, hrank2, hf22⟩ := ih _ ids2 st' hinvMid hrec
            have hmidCache : st1.cache.IsSuffix ((cls, i) :: st1.cache) :=
              List.suffix_cons _ _
            refine ⟨⟨post2.inv, ?_, ?_, ?_, ?_, ?_⟩, ?_, ?_⟩
            · exact (post1.cacheExt.trans hmidCache).trans post2.cacheExt
            · exact post1.heapExt.trans post2.heapExt
            · exact le_trans post1.nextLe post2.nextLe
            · intro p hp hnp
              by_cases hmid : p ∈ (cls, i) :: st1.cache
              · rcases List.mem_cons.mp hmid with hm | hm
                · subst hm
                  rw [hi]
                · by_cases hps : p ∈ st.cache
                  · exact absurd hps hnp
                  · exact post1.newCacheGe p hm hps
              · exact le_trans post1.nextLe (post2.newCacheGe p hp hmid)
            · intro e he hne
              by_cases hmid : e ∈ st1.heap
              · exact post1.newHeapGe e hmid hne
              · exact le_trans post1.nextLe (post2.newHeapGe e he hmid)
            · intro p hp hnp
              by_cases hmid : p ∈ (cls, i) :: st1.cache
              · rcases List.mem_cons.mp hmid with hm | hm
                · subst hm
                  exact ⟨cls, List.mem_cons_self _ _, le_refl _⟩
                · by_cases hps : p ∈ st.cache
                  · exact absurd hps hnp
                  · exact ⟨cls, List.mem_cons_self _ _, le_of_lt (hrank1 p hm hps)⟩
              · obtain ⟨c, hc, hle⟩ := hrank2 p hp hmid
                exact ⟨c, List.mem_cons_of_mem _ hc, hle⟩
            · rw [List.filter_cons_of_pos hal]
              exact List.Forall₂.cons
                (post2.cacheExt.subset (List.mem_cons_self _ _)) hf22
    case isFalse hal =>
      obtain ⟨post, hrank, hf2⟩ := ih st ids st' hinv h
      refine ⟨post, ?_, ?_⟩
      · intro p hp hnp
        obtain ⟨c, hc, hle⟩ := hrank p hp hnp
        exact ⟨c, List.mem_cons_of_mem _ hc, hle⟩
      · rw [List.filter_cons_of_neg (by simpa using hal)]
        exact hf2

theorem constructInst_spec_step (env : Env) (restr : Option (List String))
    (rank : String → Nat)
    (hr : ∀ c c', c' ∈ childClasses env c → rank c' < rank c) (fuel : Nat)
    (hQ : QSpec env restr rank fuel) : PSpec env restr rank (fuel + 1) := by
  intro cls st i st' hinv h
  rw [constructInst] at h
  split at h
  case h_1 => cases h
  case h_2 ids st2 hb =>
    cases h
    have hinvA : CInv env restr { st with next := st.next + 1 } := by
      refine ⟨hinv.nodupKeys, hinv.nodupHeap, ?_, hinv.cacheHeap,
        hinv.subsCache, hinv.complete⟩
      intro e he
      exact lt_trans (hinv.heapLt e he) (Nat.lt_succ_self _)
    obtain ⟨post, hrankQ, hf2⟩ := hQ (childClasses env cls) _ ids st2 hinvA hb
    have hNextNotHeap : ∀ e ∈ st2.heap, e.id ≠ st.next := by
      intro e he
      by_cases hes : e ∈ st.heap
      · exact Nat.ne_of_lt (hinv.heapLt e hes)
      · have h2 : st.next + 1 ≤ e.id := post.newHeapGe e he hes
        omega
    refine ⟨⟨?_, ?_, ?_, ?_, ?_, ?_⟩, rfl, ?_, ids, List.mem_cons_self _ _, hf2⟩
    · -- the invariant for the final state
      refine ⟨post.inv.nodupKeys, ?_, ?_, ?_, ?_, ?_⟩
      · rw [List.map_cons, List.nodup_cons]
        refine ⟨?_, post.inv.nodupHeap⟩
        intro hmem
        obtain ⟨e, he, hec⟩ := List.mem_map.mp hmem
        exact hNextNotHeap e he hec
      · intro e he
        rcases List.mem_cons.mp he with he | he
        · subst he
          have h1 : st.next + 1 ≤ st2.next := post.nextLe
          show st.next < st2.next
          omega
        · exact post.inv.heapLt e he
      · intro p hp
        obtain ⟨e, he, hei, hec⟩ := post.inv.cacheHeap p hp
        exact ⟨e, List.mem_cons_of_mem _ he, hei, hec⟩
      · intro e he j hj
        rcases List.mem_cons.mp he with he | he
        · subst he
          obtain ⟨c, hc, hcj⟩ := forall2_mem_right hf2 j hj
          exact ⟨c, hcj⟩
        · exact post.inv.subsCache e he j hj
      · intro e he c hc hca
        rcases List.mem_cons.mp he with he | he
        · subst he
          have hcf : c ∈ (childClasses env cls).filter (fun c => allowed restr c) :=
            List.mem_filter.mpr ⟨hc, hca⟩
          obtain ⟨j, hj, hcj⟩ := forall2_mem_left hf2 c hcf
          exact ⟨j, hcj, hj⟩
        · exact post.inv.complete e he c hc hca
    · exact post.cacheExt
    · exact post.heapExt.trans (List.suffix_cons _ _)
    · exact le_trans (Nat.le_succ _) post.nextLe
    · intro p hp hnp
      exact le_trans (Nat.le_succ _) (post.newCacheGe p hp hnp)
    · intro e he hne
      rcases List.mem_cons.mp he with he | he
      · subst he; exact le_refl _
      · by_cases hes : e ∈ st.heap
        · exact absurd hes hne
        · exact le_trans (Nat.le_succ _) (post.newHeapGe e he hes)
    · intro p hp hnp
      obtain ⟨c, hc, hle⟩ := hrankQ p hp hnp
      exact lt_of_le_of_lt hle (hr cls c hc)

theorem construct_spec (env : Env) (restr : Option (List String))
    (rank : String → Nat)
    (hr : ∀ c c', c' ∈ childClasses env c → rank c' < rank c) :
    ∀ fuel, PSpec env restr rank fuel ∧ QSpec env restr rank fuel := by
  intro fuel
  induction fuel with
  | zero =>
    have p0 : PSpec env restr rank 0 := by
      intro cls st i st' _ h
      rw [constructInst] at h
      cases h
    exact ⟨p0, createListeners_spec env restr rank 0 p0⟩
  | succ fuel ihf =>
    have p1 := constructInst_spec_step env restr rank hr fuel ihf.2
    exact ⟨p1, createListeners_spec env restr rank (fuel + 1) p1⟩

/-! ### Dispatch lemmas -/

/-- Whether a resolved attribute is an invocable handler. -/
def isActive : Attr → Bool
  | .fn _ => true
  | _ => false

theorem py_broadcast_active (bCls : String) (clsOf : Nat → String)
    (h : Nat → String → Attr) :
    ∀ subs : List Nat,
      (∀ j ∈ subs, ∃ k, h j (listener_function_name bCls) = .fn k) →
      py_broadcast bCls clsOf h subs = .ok subs := by
  intro subs
  induction subs with
  | nil => intro _; rw [py_broadcast]
  | cons j rest ih =>
    intro hall
    obtain ⟨k, hk⟩ := hall j (List.mem_cons_self _ _)
    rw [py_broadcast, hk, ih (fun j hj => hall j (List.mem_cons_of_mem _ hj))]
    rfl

theorem py_broadcast_no_missing (bCls : String) (clsOf : Nat → String)
    (h : Nat → String → Attr) :
    ∀ subs : List Nat,
      (∀ j ∈ subs, h j (listener_function_name bCls) ≠ .missing) →
      py_broadcast bCls clsOf h subs =
        .ok (subs.filter (fun j => isActive (h j (listener_function_name bCls)))) := by
  intro subs
  induction subs with
  | nil => intro _; rw [py_broadcast]; rfl
  | cons j rest ih =>
    intro hall
    have hrest := ih (fun j hj => hall j (List.mem_cons_of_mem _ hj))
    cases hj : h j (listener_function_name bCls) with
    | missing => exact absurd hj (hall j (List.mem_cons_self _ _))
    | pynone =>
      rw [py_broadcast, hj, hrest,
        List.filter_cons_of_neg (by simp [hj, isActive])]
    | fn k =>
      rw [py_broadcast, hj, hrest,
        List.filter_cons_of_pos (by simp [hj, isActive])]
      rfl

theorem py_broadcast_first_missing (bCls : String) (clsOf : Nat → String)
    (h : Nat → String → Attr) :
    ∀ (pre : List Nat) (j : Nat) (post : List Nat),
      (∀ k ∈ pre, h k (listener_function_name bCls) ≠ .missing) →
      h j (listener_function_name bCls) = .missing →
      py_broadcast bCls clsOf h (pre ++ j :: post) =
        .error ⟨clsOf j, bCls, listener_function_name bCls⟩ := by
  intro pre
  induction pre with
  | nil =>
    intro j post _ hj
    rw [List.nil_append, py_broadcast, hj]
  | cons k pre' ih =>
    intro j post hpre hj
    have hrest := ih j post (fun k hk => hpre k (List.mem_cons_of_mem _ hk)) hj
    cases hk : h k (listener_function_name bCls) with
    | missing => exact absurd hk (hpre k (List.mem_cons_self _ _))
    | pynone => rw [List.cons_append, py_broadcast, hk, hrest]
    | fn m => rw [List.cons_append, py_broadcast, hk, hrest]; rfl

/-! ### Lemmas on `removeAll` for the handler-name computation -/

theorem removeAllAux_nil (pat : List Char) : ∀ fuel, removeAllAux pat fuel [] = [] := by
  intro fuel
  cases fuel with
  | zero => rw [removeAllAux]
  | succ f => rw [removeAllAux]

theorem removeAllAux_append_self (pat : List Char) (hp : pat ≠ []) :
    ∀ (ys : List Char) (fuel : Nat), (ys ++ pat).length ≤ fuel →
      (∀ k, k < ys.length → ¬ pat.isPrefixOf ((ys ++ pat).drop k)) →
      removeAllAux pat fuel (ys ++ pat) = ys := by
  intro ys
  induction ys with
  | nil =>
    intro fuel hf _
    rw [List.nil_append]
    cases hpat : pat with
    | nil => exact absurd hpat hp
    | cons c pr =>
      subst hpat
      cases fuel with
      | zero => simp at hf
      | succ f =>
        rw [removeAllAux, if_pos ⟨hp, List.isPrefixOf_iff_prefix.mpr (List.prefix_refl _)⟩,
          List.drop_length]
        exact removeAllAux_nil _ _
  | cons y ys ih =>
    intro fuel hf hno
    cases fuel with
    | zero => simp at hf
    | succ f =>
      rw [List.cons_append, removeAllAux, if_neg]
      · rw [ih f (by simpa using Nat.lt_succ_iff.mp (Nat.lt_of_lt_of_le (by simp) hf))
          (fun k hk => by
            have := hno (k + 1) (by simpa using Nat.succ_lt_succ hk)
            rwa [List.cons_append, List.drop_succ_cons] at this)]
      · intro hcon
        have h0 := hno 0 (by simp)
        rw [List.drop_zero, List.cons_append] at h0
        exact h0 hcon.2

theorem removeAll_append_self (pat : List Char) (hp : pat ≠ []) (ys : List Char)
    (hno : ∀ k, k < ys.length → ¬ pat.isPrefixOf ((ys ++ pat).drop k)) :
    removeAll pat (ys ++ pat) = ys :=
  removeAllAux_append_self pat hp ys _ (le_refl _) hno

/-! ### Registration lemmas -/

theorem subscribeLoop_all_bc (cls : String) :
    ∀ (entries : List SubEntry) (reg : Registry),
      (∀ e ∈ entries, ∃ b, e = SubEntry.bc b) →
      (subscribeLoop cls entries reg).2 = none ∧
      ∀ b, (subscribeLoop cls entries reg).1 b =
        reg b ++ List.replicate (entries.count (SubEntry.bc b)) cls := by
  intro entries
  induction entries with
  | nil =>
    intro reg _
    refine ⟨rfl, fun b => ?_⟩
    simp [subscribeLoop]
  | cons e rest ih =>
    intro reg hall
    obtain ⟨b0, hb0⟩ := hall e (List.mem_cons_self _ _)
    subst hb0
    rw [subscribeLoop]
    obtain ⟨h1, h2⟩ := ih (regAppend reg b0 cls)
      (fun e he => hall e (List.mem_cons_of_mem _ he))
    refine ⟨h1, fun b => ?_⟩
    rw [h2 b]
    by_cases hb : b = b0
    · subst hb
      have hcount : List.count (SubEntry.bc b) (SubEntry.bc b :: rest)
          = List.count (SubEntry.bc b) rest + 1 := by
        simp [List.count_cons]
      rw [hcount, List.replicate_succ]
      simp [regAppend]
    · have hcount : List.count (SubEntry.bc b) (SubEntry.bc b0 :: rest)
          = List.count (SubEntry.bc b) rest := by
        simp [List.count_cons, hb, Ne.symm hb]
      rw [hcount]
      simp [regAppend, hb]

theorem subscribeLoop_bad (cls : String) :
    ∀ (pre : List SubEntry) (d : String) (post : List SubEntry) (reg : Registry),
      (∀ e ∈ pre, ∃ b, e = SubEntry.bc b) →
      (subscribeLoop cls (pre ++ SubEntry.notBC d :: post) reg).2 =
        some (.notABroadcaster d) := by
  intro pre
  induction pre with
  | nil => intro d post reg _; rw [List.nil_append, subscribeLoop]
  | cons e rest ih =>
    intro d post reg hall
    obtain ⟨b0, hb0⟩ := hall e (List.mem_cons_self _ _)
    subst hb0
    rw [List.cons_append, subscribeLoop]
    exact ih d post _ (fun e he => hall e (List.mem_cons_of_mem _ he))

/-! ### Lookup and removal lemmas for the suppression map -/

theorem lookupKey_removeKey_self {α : Type} (k : String) :
    ∀ l : List (String × α), lookupKey k (removeKey k l) = none := by
  intro l
  induction l with
  | nil => rfl
  | cons p rest ih =>
    obtain ⟨k', v⟩ := p
    by_cases hk : k' = k
    · subst hk
      simpa [removeKey] using ih
    · simpa [removeKey, hk, lookupKey] using ih

theorem removeKey_eq_self {α : Type} (k : String) :
    ∀ l : List (String × α), (∀ p ∈ l, p.1 ≠ k) → removeKey k l = l := by
  intro l hl
  unfold removeKey
  exact List.filter_eq_self.mpr (fun p hp => by simpa using hl p hp)

theorem lookupKey_removeKey_ne {α : Type} {k k' : String} (h : k ≠ k') :
    ∀ l : List (String × α), lookupKey k (removeKey k' l) = lookupKey k l := by
  intro l
  induction l with
  | nil => rfl
  | cons p rest ih =>
    obtain ⟨k0, v⟩ := p
    by_cases hk0 : k0 = k'
    · subst hk0
      have hne : k0 ≠ k := Ne.symm (by simpa using h)
      simpa [removeKey, lookupKey, hne] using ih
    · by_cases hk : k0 = k
      · subst hk
        simp [removeKey, hk0, lookupKey]
      · simpa [removeKey, hk0, lookupKey, hk] using ih

/-- Under the conditions `_ignore` checks for, its effect: the update method
is nulled and the previous value recorded in the suppression map. -/
theorem ignoreBC_eq (subscribeTo : List String) (bc : String) (s : LState)
    (hsub : bc ∈ subscribeTo) (hnig : lookupKey bc s.ignored = none)
    (hat : s.attrs (listener_function_name bc) ≠ .missing) :
    ignoreBC subscribeTo bc s =
      (⟨setAttr (listener_function_name bc) .pynone s.attrs,
        (bc, s.attrs (listener_function_name bc)) :: s.ignored⟩, none) := by
  rw [ignoreBC, if_neg (by simpa using hsub), if_neg (by simp [hnig])]
  cases hA : s.attrs (listener_function_name bc) with
  | missing => exact absurd hA hat
  | pynone => rfl
  | fn k => rfl

/-! ### The depth-first structure of `get_listener` -/

theorem searchListeners_eq (name : String) :
    (l : List Inst) → searchListeners name l =
      (dfsForest l).find? (fun i => i.name == name)
  | [] => by rw [searchListeners, dfsForest]; rfl
  | i :: rest => by
    obtain ⟨n, b, subs⟩ := i
    have hrest := searchListeners_eq name rest
    rw [searchListeners, dfsForest, List.cons_append, List.find?_cons]
    by_cases hn : Inst.name (Inst.mk n b subs) = name
    · rw [if_pos hn]
      have hnb : ((Inst.mk n b subs).name == name) = true := by simpa using hn
      simp only [hnb]
    · rw [if_neg hn]
      have hnb : ((Inst.mk n b subs).name == name) = false := by simpa using hn
      simp only [hnb]
      rw [List.find?_append]
      cases b with
      | true =>
        have hsubs := searchListeners_eq name subs
        have hisb : (Inst.mk n true subs).isB = true := rfl
        simp only [hisb, if_true, get_listener, dfsBelow, hsubs]
        cases hfind : (dfsForest subs).find? (fun i => i.name == name) with
        | some g => simp [hfind]
        | none => simp [hfind, hrest]
      | false =>
        have hisb : (Inst.mk n false subs).isB = true ↔ False := by
          simp [Inst.isB]
        simp only [hisb, if_false, dfsBelow]
        simp [hrest]
termination_by l => sizeOf l
decreasing_by
  all_goals simp_wf
  all_goals omega

/-! ### Claim theorems -/

/-- The invariant holds of the fresh run state. -/
theorem cinv_empty (env : Env) (restr : Option (List String)) :
    CInv env restr St.empty := by
  refine ⟨List.nodup_nil, List.nodup_nil, ?_, ?_, ?_, ?_⟩
  · intro e he; cases he
  · intro p hp; cases hp
  · intro e he; cases he
  · intro e he; cases he

/-- C1: with an acyclic registry (witnessed by a rank function, as the spec
presumes), a successful construction of a data-source instance from one fresh
run-scoped cache binds every check class to at most one cached instance, puts
that cached instance in the subscriber list of every parent subscribed to it,
and never lets two subscriber slots of the same class hold different
instances — sharing, not duplication. -/
theorem C1_instance_sharing (env : Env) (restr : Option (List String))
    (rank : String → Nat)
    (hr : ∀ c c', c' ∈ childClasses env c → rank c' < rank c)
    (fuel : Nat) (D : String) (r : Nat) (st : St)
    (hc : constructInst env restr fuel D St.empty = some (r, st)) :
    (∀ p ∈ st.cache, ∀ q ∈ st.cache, p.1 = q.1 → p = q) ∧
    (∀ e ∈ st.heap, ∀ c ∈ childClasses env e.cls, allowed restr c = true →
      ∃ j, (c, j) ∈ st.cache ∧ j ∈ e.subs) ∧
    (∀ e1 ∈ st.heap, ∀ e2 ∈ st.heap, ∀ j1 ∈ e1.subs, ∀ j2 ∈ e2.subs,
      ∀ f1 ∈ st.heap, ∀ f2 ∈ st.heap, f1.id = j1 → f2.id = j2 →
        f1.cls = f2.cls → j1 = j2) := by
  obtain ⟨post, _, _, _⟩ :=
    (construct_spec env restr rank hr fuel).1 D St.empty r st
      (cinv_empty env restr) hc
  have inv := post.inv
  refine ⟨?_, inv.complete, ?_⟩
  · intro p hp q hq hpq
    exact eq_of_nodup_map inv.nodupKeys hp hq hpq
  · intro e1 he1 e2 he2 j1 hj1 j2 hj2 f1 hf1 f2 hf2 hid1 hid2 hcls
    obtain ⟨c1, hc1⟩ := inv.subsCache e1 he1 j1 hj1
    obtain ⟨c2, hc2⟩ := inv.subsCache e2 he2 j2 hj2
    obtain ⟨g1, hg1, hg1i, hg1c⟩ := inv.cacheHeap _ hc1
    obtain ⟨g2, hg2, hg2i, hg2c⟩ := inv.cacheHeap _ hc2
    have hf1g : f1 = g1 :=
      eq_of_nodup_map inv.nodupHeap hf1 hg1 (by rw [hid1, hg1i])
    have hf2g : f2 = g2 :=
      eq_of_nodup_map inv.nodupHeap hf2 hg2 (by rw [hid2, hg2i])
    have hc12 : c1 = c2 := by
      have h1 : g1.cls = c1 := hg1c
      have h2 : g2.cls = c2 := hg2c
      rw [← h1, ← h2, ← hf1g, ← hf2g, hcls]
    rw [hc12] at hc1
    have := eq_of_nodup_map inv.nodupKeys hc1 hc2 rfl
    exact congrArg Prod.snd this

/-- C2: a successful construction of a broadcaster instance from a fresh cache
gives it a subscriber list whose classes are exactly its registry entry in
declaration order, filtered by the restriction set; a broadcast with all
handlers present invokes exactly those subscribers in that order, and, the
model being a pure function of the unchanged state, the same order on every
repeated broadcast. -/
theorem C2_broadcast_order (env : Env) (restr : Option (List String))
    (rank : String → Nat)
    (hr : ∀ c c', c' ∈ childClasses env c → rank c' < rank c)
    (fuel : Nat) (D : String) (r : Nat) (st : St)
    (hD : env.isB D = true)
    (hc : constructInst env restr fuel D St.empty = some (r, st)) :
    ∃ ids, (⟨r, D, ids⟩ : HeapEntry) ∈ st.heap ∧
      List.Forall₂ (fun c j => ∃ e ∈ st.heap, e.id = j ∧ e.cls = c)
        ((env.registry D).filter (fun c => allowed restr c)) ids ∧
      ∀ (clsOf : Nat → String) (h : Nat → String → Attr),
        (∀ j ∈ ids, ∃ k, h j (listener_function_name D) = .fn k) →
        py_broadcast D clsOf h ids = .ok ids := by
  obtain ⟨post, _, _, ids, hmem, hf2⟩ :=
    (construct_spec env restr rank hr fuel).1 D St.empty r st
      (cinv_empty env restr) hc
  have hchild : childClasses env D = env.registry D := by
    rw [childClasses, if_pos hD]
  rw [hchild] at hf2
  refine ⟨ids, hmem, ?_, ?_⟩
  · refine hf2.imp ?_
    intro c j hcj
    obtain ⟨e, he, hei, hec⟩ := post.inv.cacheHeap _ hcj
    exact ⟨e, he, hei, hec⟩
  · intro clsOf h hall
    exact py_broadcast_active D clsOf h ids hall

/-- C5: a missing update method does not disturb construction (which never
inspects handlers) and surfaces only when a broadcast reaches the subscriber:
the first broadcast faults with an `IllegalListenerError` naming the
subscriber's class, the broadcasting class and the expected method name. -/
theorem C5_missing_handler_at_broadcast (env : Env) (restr : Option (List String))
    (fuel : Nat) (D : String) (r : Nat) (st : St)
    (hc : constructInst env restr fuel D St.empty = some (r, st))
    (e : HeapEntry) (he : e ∈ st.heap) (clsOf : Nat → String)
    (h : Nat → String → Attr) (pre : List Nat) (j : Nat) (post : List Nat)
    (hsubs : e.subs = pre ++ j :: post)
    (hpre : ∀ k ∈ pre, h k (listener_function_name e.cls) ≠ .missing)
    (hj : h j (listener_function_name e.cls) = .missing) :
    py_broadcast e.cls clsOf h e.subs =
      .error ⟨clsOf j, e.cls, listener_function_name e.cls⟩ := by
  rw [hsubs]
  exact py_broadcast_first_missing e.cls clsOf h pre j post hpre hj

/-- C9: `get_listener` performs exactly a depth-first (pre-order) search of
the subscriber tree below the root, descending into subscribers that are
themselves broadcasters, and returns the first instance whose class name
matches, or `None`. -/
theorem C9_get_listener_is_dfs (name : String) (root : Inst) :
    get_listener name root = (dfsBelow root).find? (fun i => i.name == name) := by
  obtain ⟨n, b, subs⟩ := root
  rw [get_listener, dfsBelow]
  exact searchListeners_eq name subs

/-- C3 counterexample: `class MyBadBC(Broadcaster)` — a data-source type whose
name lacks the reserved suffix — is built by plain `type` (no base carries the
`ListenerMeta` metaclass), so its declaration raises no fault at all, contrary
to the claim that every such declaration fails. -/
theorem C3_counterexample :
    usesListenerMeta [PyBase.broadcasterBase] = false ∧
    pyEndsWith "MyBadBC" "Broadcaster" = false ∧
    (declareClass "MyBadBC" [PyBase.broadcasterBase] (.pylist [])
      (fun _ => [])).2 = none := by
  refine ⟨rfl, by decide, rfl⟩

/-- C3 amended: the reserved-suffix check fires only for declarations that
reach `ListenerMeta.__new__` (some direct base derives from `Listener`) and
that list `Broadcaster` itself among their direct bases; for those, a name
lacking the suffix faults with `IllegalBroadcasterError` and nothing is
registered. -/
theorem C3_broadcaster_suffix_check (cls : String) (bases : List PyBase)
    (sub : SubVal) (reg : Registry)
    (hmeta : usesListenerMeta bases = true)
    (hbase : PyBase.broadcasterBase ∈ bases)
    (hname : pyEndsWith cls "Broadcaster" = false) :
    declareClass cls bases sub reg = (reg, some (.illegalBroadcaster cls)) := by
  have hhb : handle_broadcaster cls = some (.illegalBroadcaster cls) := by
    rw [handle_broadcaster, if_neg (by simp [hname])]
  rw [declareClass, if_pos hmeta, if_pos hbase]
  simp only [hhb]

/-- C4 counterexample: for `XBroadcasterYBroadcaster` (which does end with the
reserved suffix) the code removes every occurrence of `"broadcaster"` from the
lowercased name, producing `update_xy`, not the `update_xbroadcastery` that
stripping the suffix exactly once from the end would give. -/
theorem C4_counterexample :
    pyEndsWith "XBroadcasterYBroadcaster" "Broadcaster" = true ∧
    listener_function_name "XBroadcasterYBroadcaster" = "update_xy" ∧
    handler_name_spec "XBroadcasterYBroadcaster" = "update_xbroadcastery" ∧
    listener_function_name "XBroadcasterYBroadcaster" ≠
      handler_name_spec "XBroadcasterYBroadcaster" := by
  refine ⟨by decide, rfl, rfl, by decide⟩

/-- C4 amended: the handler name is the fixed prefix followed by the lowercased
name with every occurrence of `"broadcaster"` removed; when the only occurrence
in the lowercased name is the final suffix (no occurrence starts before it),
this agrees with stripping the suffix once from the end and lowercasing. -/
theorem C4_handler_name (xs : List Char)
    (hno : ∀ k, k < xs.length →
      ¬ ("broadcaster".data.isPrefixOf
          (((xs.map Char.toLower) ++ "broadcaster".data).drop k))) :
    listener_function_name ⟨xs ++ "Broadcaster".data⟩ =
      ⟨"update_".data ++ xs.map Char.toLower⟩ := by
  rw [listener_function_name]
  have hdata : (String.mk (xs ++ "Broadcaster".data)).data
      = xs ++ "Broadcaster".data := rfl
  rw [hdata, List.map_append]
  have hmap : ("Broadcaster".data).map Char.toLower = "broadcaster".data := by
    decide
  rw [hmap, removeAll_append_self _ (by decide) _
    (fun k hk => hno k (by simpa using hk))]

/-- C6: suppressing a live subscription and resuming it restores the exact
listener state (attribute table and suppression map), hence identical dispatch
behaviour; and a broadcast never faults when handlers exist: it invokes, in
subscriber order, exactly the subscribers whose handler is not nulled,
silently skipping the suppressed ones. -/
theorem C6_suppress_resume (subscribeTo : List String) (bc : String)
    (s : LState) (hsub : bc ∈ subscribeTo)
    (hnig : lookupKey bc s.ignored = none)
    (hat : s.attrs (listener_function_name bc) ≠ .missing) :
    ((ignoreBC subscribeTo bc s).2 = none ∧
      (payAttentionTo subscribeTo bc (ignoreBC subscribeTo bc s).1).2 = none ∧
      (payAttentionTo subscribeTo bc (ignoreBC subscribeTo bc s).1).1.attrs
        = s.attrs ∧
      (payAttentionTo subscribeTo bc (ignoreBC subscribeTo bc s).1).1.ignored
        = s.ignored) ∧
    (∀ (bCls : String) (clsOf : Nat → String) (h : Nat → String → Attr)
        (subs : List Nat),
      (∀ j ∈ subs, h j (listener_function_name bCls) ≠ .missing) →
      py_broadcast bCls clsOf h subs =
        .ok (subs.filter (fun j => isActive (h j (listener_function_name bCls))))) := by
  refine ⟨?_, fun bCls clsOf h subs hnm => py_broadcast_no_missing bCls clsOf h subs hnm⟩
  have hig := ignoreBC_eq subscribeTo bc s hsub hnig hat
  rw [hig]
  refine ⟨rfl, ?_⟩
  have hlk : lookupKey bc
      ((bc, s.attrs (listener_function_name bc)) :: s.ignored)
      = some (s.attrs (listener_function_name bc)) := by
    rw [lookupKey, if_pos rfl]
  rw [payAttentionTo, if_neg (by simpa using hsub)]
  simp only [hlk]
  refine ⟨by trivial, ?_, ?_⟩
  · funext g
    rw [setAttr, setAttr]
    by_cases hg : g = listener_function_name bc
    · rw [if_pos hg, hg]
    · rw [if_neg hg, if_neg hg]
  · show removeKey bc ((bc, s.attrs (listener_function_name bc)) :: s.ignored)
      = s.ignored
    rw [removeKey, List.filter_cons_of_neg (by simp)]
    exact removeKey_eq_self bc s.ignored (lookupKey_eq_none hnig)

/-- C7 counterexample: a check type literally named `Listener` with an empty
subscription list is declared without any fault — the empty-list check exempts
that name — contradicting the claim that an empty subscription list always
fails declaration. -/
theorem C7_counterexample :
    (handle_listener "Listener" (SubVal.pylist []) (fun _ => [])).2 = none := rfl

/-- C7 amended: check-type declaration faults, each naming the offender, for a
non-list `subscribe_to`, for an empty list (except for the framework base name
`Listener`, which is exempt), and for a listed entry that is not a genuine
broadcaster; when every entry is a broadcaster and the list is non-empty, no
fault is raised and the class is appended once per listing, in declaration
order, to each listed broadcaster's registry entry. -/
theorem C7_checktype_declaration (cls : String) (reg : Registry) :
    (∀ d, handle_listener cls (.notList d) reg
      = (reg, some (.subscribeToNotList d))) ∧
    (cls ≠ "Listener" →
      handle_listener cls (.pylist []) reg = (reg, some (.noSubscriptions cls))) ∧
    (∀ (pre : List SubEntry) (d : String) (post : List SubEntry),
      (∀ e ∈ pre, ∃ b, e = SubEntry.bc b) →
      (handle_listener cls (.pylist (pre ++ SubEntry.notBC d :: post)) reg).2 =
        some (.notABroadcaster d)) ∧
    (∀ entries : List SubEntry, entries ≠ [] →
      (∀ e ∈ entries, ∃ b, e = SubEntry.bc b) →
      (handle_listener cls (.pylist entries) reg).2 = none ∧
      ∀ b, (handle_listener cls (.pylist entries) reg).1 b =
        reg b ++ List.replicate (entries.count (SubEntry.bc b)) cls) := by
  refine ⟨fun d => rfl, ?_, ?_, ?_⟩
  · intro hcls
    rw [handle_listener]
    rw [if_pos (by exact ⟨rfl, hcls⟩)]
  · intro pre d post hpre
    rw [handle_listener, if_neg (by intro hcon; simp at hcon)]
    exact subscribeLoop_bad cls pre d post reg hpre
  · intro entries hne hall
    rw [handle_listener,
      if_neg (by intro hcon; exact hne (List.length_eq_zero.mp hcon.1))]
    exact subscribeLoop_all_bc cls entries reg hall

/-- C8 counterexample: a violation line without the optional `:<line>`
component does match the pattern (with no line number), but the utility then
crashes on `int(None)` before inserting anything, contrary to the claim that
every matching line gets its two marker lines. -/
theorem C8_counterexample :
    pyMatch "a.py violates NoTabs" = some ("a.py", none, "NoTabs") ∧
    auto_waive_main "lw" ["a.py violates NoTabs"]
      (fun _ => ["l0", "l1", "l2"]) = none := ⟨rfl, rfl⟩

/-- C8 amended: for input lines that carry the `:<line>` component, the
utility brackets each offending (zero-based) line with a disable marker above
and an enable marker below, applying matches of one file in descending line
order; for the spec scenario — violations at lines 3 and 7 of a ten-line
file — exactly four lines are inserted, at the correct final positions. -/
theorem C8_waiver_insertion (tool : String)
    (l0 l1 l2 l3 l4 l5 l6 l7 l8 l9 : String) (files : String → List String)
    (hf : files "a.py" = [l0, l1, l2, l3, l4, l5, l6, l7, l8, l9]) :
    (auto_waive_main tool ["a.py:3 violates NoTabs", "a.py:7 violates NoTabs"]
        files).map (fun g => g "a.py") =
      some [l0, l1, l2, disableLine tool "NoTabs", l3, enableLine tool "NoTabs",
        l4, l5, l6, disableLine tool "NoTabs", l7, enableLine tool "NoTabs",
        l8, l9] := by
  have h1 : auto_waive_main tool
      ["a.py:3 violates NoTabs", "a.py:7 violates NoTabs"] files =
      some (insert_at_line (insert_at_line (insert_at_line (insert_at_line files
        "a.py" 8 (enableLine tool "NoTabs")) "a.py" 7 (disableLine tool "NoTabs"))
        "a.py" 4 (enableLine tool "NoTabs")) "a.py" 3 (disableLine tool "NoTabs"))
      := by rfl
  rw [h1]
  simp only [Option.map_some']
  congr 1
  simp only [insert_at_line, if_pos rfl]
  rw [hf]
  rfl

/-- C10: `disable`/`enable` walk `subscribe_to` in order and are not atomic on
failure: with `subscribe_to = [A, B]` and `B` already suppressed, `disable`
raises the operational fault for `B` but leaves `A` newly suppressed; dually,
with `A` suppressed and `B` live, `enable` raises for `B` but leaves `A` newly
resumed. -/
theorem C10_disable_enable_partial (A B : String) (a : Attr) (s t : LState)
    (hAB : A ≠ B)
    (hsB : (lookupKey B s.ignored).isSome = true)
    (hsA : lookupKey A s.ignored = none)
    (hsAat : s.attrs (listener_function_name A) ≠ .missing)
    (htA : lookupKey A t.ignored = some a)
    (htB : lookupKey B t.ignored = none) :
    ((disable [A, B] s).2 = some (.previouslyIgnored B) ∧
      (disable [A, B] s).1.attrs (listener_function_name A) = .pynone ∧
      lookupKey A (disable [A, B] s).1.ignored =
        some (s.attrs (listener_function_name A))) ∧
    ((enable [A, B] t).2 = some (.notPreviouslyIgnored B) ∧
      (enable [A, B] t).1.attrs (listener_function_name A) = a ∧
      lookupKey A (enable [A, B] t).1.ignored = none) := by
  constructor
  · have h1 := ignoreBC_eq [A, B] A s (List.mem_cons_self _ _) hsA hsAat
    have h2 : ignoreBC [A, B] B
        ⟨setAttr (listener_function_name A) .pynone s.attrs,
          (A, s.attrs (listener_function_name A)) :: s.ignored⟩ =
        (⟨setAttr (listener_function_name A) .pynone s.attrs,
          (A, s.attrs (listener_function_name A)) :: s.ignored⟩,
         some (.previouslyIgnored B)) := by
      rw [ignoreBC, if_neg (by simp)]
      have hlkB : lookupKey B
          ((A, s.attrs (listener_function_name A)) :: s.ignored)
          = lookupKey B s.ignored := by
        rw [lookupKey, if_neg hAB]
      rw [if_pos (by rw [hlkB]; exact hsB)]
    have hD : disable [A, B] s =
        (⟨setAttr (listener_function_name A) .pynone s.attrs,
          (A, s.attrs (listener_function_name A)) :: s.ignored⟩,
         some (.previouslyIgnored B)) := by
      rw [disable, disableL]
      simp only [h1]
      rw [disableL]
      simp only [h2]
    rw [hD]
    refine ⟨rfl, ?_, ?_⟩
    · show setAttr (listener_function_name A) .pynone s.attrs
        (listener_function_name A) = .pynone
      rw [setAttr, if_pos rfl]
    · show lookupKey A
        ((A, s.attrs (listener_function_name A)) :: s.ignored)
        = some (s.attrs (listener_function_name A))
      rw [lookupKey, if_pos rfl]
  · have h3 : payAttentionTo [A, B] A t =
        (⟨setAttr (listener_function_name A) a t.attrs,
          removeKey A t.ignored⟩, none) := by
      rw [payAttentionTo, if_neg (by simp)]
      simp only [htA]
    have h4 : payAttentionTo [A, B] B
        ⟨setAttr (listener_function_name A) a t.attrs, removeKey A t.ignored⟩ =
        (⟨setAttr (listener_function_name A) a t.attrs,
          removeKey A t.ignored⟩, some (.notPreviouslyIgnored B)) := by
      rw [payAttentionTo, if_neg (by simp)]
      have hlkB : lookupKey B (removeKey A t.ignored) = none := by
        rw [lookupKey_removeKey_ne (Ne.symm hAB), htB]
      simp only [hlkB]
    have hE : enable [A, B] t =
        (⟨setAttr (listener_function_name A) a t.attrs,
          removeKey A t.ignored⟩, some (.notPreviouslyIgnored B)) := by
      rw [enable, enableL]
      simp only [h3]
      rw [enableL]
      simp only [h4]
    rw [hE]
    refine ⟨rfl, ?_, ?_⟩
    · show setAttr (listener_function_name A) a t.attrs
        (listener_function_name A) = a
      rw [setAttr, if_pos rfl]
    · exact lookupKey_removeKey_self A t.ignored

/-! ### Concrete witnesses -/

/-- A small concrete environment: one broadcaster with one subscribed check. -/
def envW : Env :=
  ⟨fun c => if c = "DBroadcaster" then ["CheckA"] else [],
   fun c => c == "DBroadcaster"⟩

/-- A rank function witnessing the acyclicity of `envW`'s registry. -/
def rankW : String → Nat := fun c => if c = "DBroadcaster" then 1 else 0

/-- The run state constructing `envW`'s broadcaster produces. -/
def stW : St := ⟨[("CheckA", 1)], [⟨0, "DBroadcaster", [1]⟩, ⟨1, "CheckA", []⟩], 2⟩

theorem envW_rank : ∀ c c', c' ∈ childClasses envW c → rankW c' < rankW c := by
  intro c c' h
  rw [childClasses] at h
  by_cases hc : c = "DBroadcaster"
  · subst hc
    rw [if_pos (by rfl)] at h
    have hca : c' = "CheckA" := by simpa [envW] using h
    subst hca
    show rankW "CheckA" < rankW "DBroadcaster"
    decide
  · have hisb : envW.isB c = false := by simp [envW, hc]
    rw [if_neg (by simp [hisb])] at h
    cases h

theorem C1_witness :
    (∀ p ∈ stW.cache, ∀ q ∈ stW.cache, p.1 = q.1 → p = q) ∧
    (∀ e ∈ stW.heap, ∀ c ∈ childClasses envW e.cls, allowed none c = true →
      ∃ j, (c, j) ∈ stW.cache ∧ j ∈ e.subs) ∧
    (∀ e1 ∈ stW.heap, ∀ e2 ∈ stW.heap, ∀ j1 ∈ e1.subs, ∀ j2 ∈ e2.subs,
      ∀ f1 ∈ stW.heap, ∀ f2 ∈ stW.heap, f1.id = j1 → f2.id = j2 →
        f1.cls = f2.cls → j1 = j2) :=
  C1_instance_sharing envW none rankW envW_rank 2 "DBroadcaster" 0 stW
    (by simp [constructInst, createListeners, childClasses, envW, St.empty,
      allowed, lookupKey, stW])

theorem C2_witness :
    ∃ ids, (⟨0, "DBroadcaster", ids⟩ : HeapEntry) ∈ stW.heap ∧
      List.Forall₂ (fun c j => ∃ e ∈ stW.heap, e.id = j ∧ e.cls = c)
        ((envW.registry "DBroadcaster").filter (fun c => allowed none c)) ids ∧
      ∀ (clsOf : Nat → String) (h : Nat → String → Attr),
        (∀ j ∈ ids, ∃ k, h j (listener_function_name "DBroadcaster") = .fn k) →
        py_broadcast "DBroadcaster" clsOf h ids = .ok ids :=
  C2_broadcast_order envW none rankW envW_rank 2 "DBroadcaster" 0 stW rfl
    (by simp [constructInst, createListeners, childClasses, envW, St.empty,
      allowed, lookupKey, stW])

theorem C3_witness :
    declareClass "MyBadBC" [PyBase.broadcasterBase, PyBase.listenerBase]
      (.pylist []) (fun _ => []) =
      ((fun _ => []), some (.illegalBroadcaster "MyBadBC")) :=
  C3_broadcaster_suffix_check "MyBadBC"
    [PyBase.broadcasterBase, PyBase.listenerBase] (.pylist []) (fun _ => [])
    (by decide) (by decide) (by decide)

theorem C4_witness :
    listener_function_name ⟨"X".data ++ "Broadcaster".data⟩ =
      ⟨"update_".data ++ "X".data.map Char.toLower⟩ :=
  C4_handler_name "X".data (by decide)

theorem C5_witness :
    py_broadcast "DBroadcaster"
      (fun j => if j = 1 then "CheckA" else "DBroadcaster")
      (fun _ _ => Attr.missing) [1] =
      .error ⟨"CheckA", "DBroadcaster", listener_function_name "DBroadcaster"⟩ :=
  C5_missing_handler_at_broadcast envW none 2 "DBroadcaster" 0 stW
    (by simp [constructInst, createListeners, childClasses, envW, St.empty,
      allowed, lookupKey, stW])
    ⟨0, "DBroadcaster", [1]⟩ (by decide)
    (fun j => if j = 1 then "CheckA" else "DBroadcaster")
    (fun _ _ => Attr.missing) [] 1 [] rfl (by simp) rfl

/-- A concrete listener state: every update method present, nothing ignored. -/
def lsW : LState := ⟨fun _ => Attr.fn 0, []⟩

theorem C6_witness :
    ((ignoreBC ["ABroadcaster"] "ABroadcaster" lsW).2 = none ∧
      (payAttentionTo ["ABroadcaster"] "ABroadcaster"
        (ignoreBC ["ABroadcaster"] "ABroadcaster" lsW).1).2 = none ∧
      (payAttentionTo ["ABroadcaster"] "ABroadcaster"
        (ignoreBC ["ABroadcaster"] "ABroadcaster" lsW).1).1.attrs = lsW.attrs ∧
      (payAttentionTo ["ABroadcaster"] "ABroadcaster"
        (ignoreBC ["ABroadcaster"] "ABroadcaster" lsW).1).1.ignored
        = lsW.ignored) ∧
    (∀ (bCls : String) (clsOf : Nat → String) (h : Nat → String → Attr)
        (subs : List Nat),
      (∀ j ∈ subs, h j (listener_function_name bCls) ≠ .missing) →
      py_broadcast bCls clsOf h subs =
        .ok (subs.filter (fun j => isActive (h j (listener_function_name bCls))))) :=
  C6_suppress_resume ["ABroadcaster"] "ABroadcaster" lsW (by decide) rfl
    (by decide)

theorem C7_witness :
    (handle_listener "CheckA" (.notList "<class int>") (fun _ => []) =
      ((fun _ => []), some (.subscribeToNotList "<class int>"))) ∧
    (handle_listener "CheckA" (.pylist []) (fun _ => []) =
      ((fun _ => []), some (.noSubscriptions "CheckA"))) ∧
    ((handle_listener "CheckA"
        (.pylist [SubEntry.bc "BBroadcaster", SubEntry.notBC "<object>"])
        (fun _ => [])).2 = some (.notABroadcaster "<object>")) ∧
    ((handle_listener "CheckA" (.pylist [SubEntry.bc "BBroadcaster"])
        (fun _ => [])).2 = none ∧
      ∀ b, (handle_listener "CheckA" (.pylist [SubEntry.bc "BBroadcaster"])
        (fun _ => [])).1 b =
        (fun _ => ([] : List String)) b ++
          List.replicate ([SubEntry.bc "BBroadcaster"].count (SubEntry.bc b))
            "CheckA") := by
  refine ⟨(C7_checktype_declaration "CheckA" (fun _ => [])).1 "<class int>",
    (C7_checktype_declaration "CheckA" (fun _ => [])).2.1 (by decide),
    (C7_checktype_declaration "CheckA" (fun _ => [])).2.2.1
      [SubEntry.bc "BBroadcaster"] "<object>" []
      (by intro e he; rw [List.mem_singleton] at he; exact ⟨"BBroadcaster", he⟩),
    (C7_checktype_declaration "CheckA" (fun _ => [])).2.2.2
      [SubEntry.bc "BBroadcaster"] (by decide)
      (by intro e he; rw [List.mem_singleton] at he; exact ⟨"BBroadcaster", he⟩)⟩

theorem C8_witness :
    (auto_waive_main "lw" ["a.py:3 violates NoTabs", "a.py:7 violates NoTabs"]
      (fun f => if f = "a.py" then
        ["l0", "l1", "l2", "l3", "l4", "l5", "l6", "l7", "l8", "l9"]
      else [])).map (fun g => g "a.py") =
      some ["l0", "l1", "l2", disableLine "lw" "NoTabs", "l3",
        enableLine "lw" "NoTabs", "l4", "l5", "l6", disableLine "lw" "NoTabs",
        "l7", enableLine "lw" "NoTabs", "l8", "l9"] :=
  C8_waiver_insertion "lw" "l0" "l1" "l2" "l3" "l4" "l5" "l6" "l7" "l8" "l9"
    (fun f => if f = "a.py" then
      ["l0", "l1", "l2", "l3", "l4", "l5", "l6", "l7", "l8", "l9"]
    else []) (by decide)

/-- Disable scenario state: `BBroadcaster` already suppressed. -/
def sW10 : LState := ⟨fun _ => Attr.fn 0, [("BBroadcaster", Attr.fn 1)]⟩

/-- Enable scenario state: `ABroadcaster` suppressed, `BBroadcaster` live. -/
def tW10 : LState := ⟨fun _ => Attr.pynone, [("ABroadcaster", Attr.fn 2)]⟩

theorem C10_witness :
    ((disable ["ABroadcaster", "BBroadcaster"] sW10).2 =
        some (.previouslyIgnored "BBroadcaster") ∧
      (disable ["ABroadcaster", "BBroadcaster"] sW10).1.attrs
        (listener_function_name "ABroadcaster") = .pynone ∧
      lookupKey "ABroadcaster"
        (disable ["ABroadcaster", "BBroadcaster"] sW10).1.ignored =
        some (sW10.attrs (listener_function_name "ABroadcaster"))) ∧
    ((enable ["ABroadcaster", "BBroadcaster"] tW10).2 =
        some (.notPreviouslyIgnored "BBroadcaster") ∧
      (enable ["ABroadcaster", "BBroadcaster"] tW10).1.attrs
        (listener_function_name "ABroadcaster") = Attr.fn 2 ∧
      lookupKey "ABroadcaster"
        (enable ["ABroadcaster", "BBroadcaster"] tW10).1.ignored = none) :=
  C10_disable_enable_partial "ABroadcaster" "BBroadcaster" (Attr.fn 2) sW10 tW10
    (by decide) (by decide) rfl (by decide) rfl rfl
